import Mathlib

/-!
Shallow embedding of the processing pipeline (src/challenge.ts):
a streaming CSV-to-SQLite batch loader plus its orchestrator.

Modelling conventions:
* A parsed CSV row is a list of field strings; with headers enabled the
  parser zips the header names with the row's fields to form a record.
* `processCSV` is embedded as `processRows`, a structural recursion over
  the list of data rows that mirrors the event-driven pause/resume loop:
  under Node stream semantics, `pause()` inside the `data` handler stops
  further `data` events until `resume()`, so execution within one source
  is sequential and can be modelled as a fold.  The model records an
  event trace (row reads, insert starts/ends), the list of committed
  batches, the unflushed accumulator at termination, and the maximum
  accumulator size ever reached.
* A bulk-insert failure inside the `async` `data`/`end` handlers is an
  unhandled promise rejection in the source: `reject` is never invoked
  and the stream stays paused, so the promise returned by `processCSV`
  never settles.  The model renders this terminal outcome as
  `Outcome.hang`.
* `processDataDump` is embedded over booleans saying which stage
  succeeds, recording which stages ran and whether `db.destroy()` ran.
-/

set_option autoImplicit false

namespace Challenge

/-- A record produced by the CSV parser with `headers: true`:
header names zipped with the row's field values. -/
abbrev Record := List (String × String)

/-- Build the record for one data row: zip the header names with the
row's fields (fast-csv maps each field to its header name). -/
def mkRecord (header row : List String) : Record :=
  header.zip row

/-- Terminal outcome of one `processCSV` call.
`ok`: the promise resolved; `parseFailure`: the promise rejected with the
csv stream's error; `hang`: the promise never settles (an insert
rejection inside an `async` event handler is an unhandled rejection —
`reject` is never called and the paused stream is never resumed). -/
inductive Outcome where
  | ok
  | parseFailure
  | hang
  deriving DecidableEq, Repr

/-- Events observable during a load: reading data row `i` from the
source, and the start / completion of the bulk-insert numbered `k`. -/
inductive Ev where
  | read (i : Nat)
  | insertStart (k : Nat)
  | insertEnd (k : Nat)
  deriving DecidableEq, Repr

/-- Result of running the streaming batch loader. -/
structure LoadRes where
  /-- how the returned promise terminated (or failed to) -/
  outcome : Outcome
  /-- batches committed to the database, in insertion order -/
  inserted : List (List Record)
  /-- contents of the in-memory accumulator when the run stopped -/
  leftover : List Record
  /-- trace of reads and insert start/end events, in program order -/
  trace : List Ev
  /-- largest size the in-memory accumulator ever reached -/
  maxB : Nat
  deriving DecidableEq, Repr

/-- The body of `processCSV` (src/challenge.ts:113-138) as a fold over
the parsed data rows.  Arguments: `header` is the parsed header row, `N`
the `batchSize`, `insOk k` whether the `k`-th `db.batchInsert` call
succeeds, then the remaining data rows, the index `i` of the next row,
the number `k` of insert operations performed so far, and the current
accumulator `batch`.

Per row: a field-count mismatch against the header makes the csv stream
emit an error, rejecting the promise (`parseFailure`) with the
accumulator unflushed.  Otherwise the record is pushed; if the
accumulator has reached `N` the stream is paused, the batch inserted
(cleared on success; on failure the run hangs with the stream paused),
and only then is the stream resumed.  At end of source a nonempty
accumulator is flushed once, then the promise resolves. -/
def processRows (header : List String) (N : Nat) (insOk : Nat → Bool) :
    List (List String) → Nat → Nat → List Record → LoadRes
  | [], _, k, batch =>
    if 0 < batch.length then
      if insOk k then
        ⟨.ok, [batch], [], [.insertStart k, .insertEnd k], batch.length⟩
      else
        ⟨.hang, [], batch, [.insertStart k], batch.length⟩
    else
      ⟨.ok, [], [], [], batch.length⟩
  | r :: rs, i, k, batch =>
    if r.length ≠ header.length then
      ⟨.parseFailure, [], batch, [], batch.length⟩
    else
      let batch' := batch ++ [mkRecord header r]
      if N ≤ batch'.length then
        if insOk k then
          let res := processRows header N insOk rs (i + 1) (k + 1) []
          ⟨res.outcome, batch' :: res.inserted, res.leftover,
            .read i :: .insertStart k :: .insertEnd k :: res.trace,
            max batch'.length res.maxB⟩
        else
          ⟨.hang, [], batch', [.read i, .insertStart k], batch'.length⟩
      else
        let res := processRows header N insOk rs (i + 1) k batch'
        ⟨res.outcome, res.inserted, res.leftover,
          .read i :: res.trace, max batch'.length res.maxB⟩

/-- `processCSV` on a source already split into header and data rows:
start with an empty accumulator, row index 0 and no inserts performed. -/
def processCSV (header : List String) (rows : List (List String))
    (N : Nat) (insOk : Nat → Bool) : LoadRes :=
  processRows header N insOk rows 0 0 []

/-- Split a list into chunks of size `n + 1`; the last chunk may be
shorter.  Specification device for the batch contents. -/
def chunkSucc {α : Type} (n : Nat) : List α → List (List α)
  | [] => []
  | a :: l => (a :: l).take (n + 1) :: chunkSucc n (l.drop n)
termination_by l => l.length
decreasing_by simp [List.length_drop]; omega

/-- Scan a trace with a flag saying whether an insert is outstanding;
returns `true` iff some read event occurs while the flag is set. -/
def readDuringInsert : List Ev → Bool → Bool
  | [], _ => false
  | .read _ :: tr, b => b || readDuringInsert tr b
  | .insertStart _ :: tr, _ => readDuringInsert tr true
  | .insertEnd _ :: tr, _ => readDuringInsert tr false

/-- Scan a trace counting completed inserts (`done`); every read of row
`i` must find all inserts of earlier batches already completed, i.e. the
batch number `i / N` of the row being read never exceeds `done`. -/
def readsAfterInserts (N : Nat) : List Ev → Nat → Bool
  | [], _ => true
  | .read i :: tr, done => decide (i / N ≤ done) && readsAfterInserts N tr done
  | .insertStart _ :: tr, done => readsAfterInserts N tr done
  | .insertEnd _ :: tr, done => readsAfterInserts N tr (done + 1)

/-- Error raised by the storage engine when `createTable` is invoked for
a table that already exists (the error `setupTables` guards against by
checking `hasTable` first). -/
inductive DbErr where
  | tableExists
  deriving DecidableEq, Repr

/-- Storage-side schema state: for each of the two tables, `none` when
the table does not exist, `some cols` when it exists with columns
`cols`. -/
structure Schema where
  organizations : Option (List String)
  customers : Option (List String)
  deriving DecidableEq, Repr

/-- Column layout of the `organizations` table (src/challenge.ts:69-80). -/
def orgColumns : List String :=
  ["id", "index", "organization id", "name", "country", "founded",
   "website", "description", "number of employees", "industry"]

/-- Column layout of the `customers` table (src/challenge.ts:85-101). -/
def customerColumns : List String :=
  ["id", "index", "customer id", "company", "first name", "last name",
   "city", "phone 1", "phone 2", "email", "address", "country",
   "website", "subscription", "subscription date"]

/-- `db.schema.createTable`: fails when the table already exists,
otherwise yields the new column list. -/
def createTable (existing : Option (List String)) (cols : List String) :
    Except DbErr (List String) :=
  match existing with
  | some _ => .error .tableExists
  | none => .ok cols

/-- `setupTables` (src/challenge.ts:66-103): for each of the two tables,
check `hasTable` and only create the table when it is absent. -/
def setupTables (s : Schema) : Except DbErr Schema := do
  let s1 ←
    if s.organizations.isNone then do
      let cols ← createTable s.organizations orgColumns
      pure (Schema.mk (some cols) s.customers)
    else
      pure s
  if s1.customers.isNone then do
    let cols ← createTable s1.customers customerColumns
    pure (Schema.mk s1.organizations (some cols))
  else
    pure s1

/-- A storage target with neither table. -/
def emptySchema : Schema := ⟨none, none⟩

/-- Result of one `processDataDump` run. -/
structure RunRes where
  /-- the returned promise resolved (no stage failed) -/
  ok : Bool
  /-- `createDatabase` was reached, opening the storage connection -/
  dbOpened : Bool
  /-- `db.destroy()` was reached, closing the storage connection -/
  dbClosed : Bool
  /-- the extraction stage was started -/
  ranExtract : Bool
  /-- the schema-setup stage was started -/
  ranSetup : Bool
  /-- the first CSV load was started -/
  ranCsv1 : Bool
  /-- the second CSV load was started -/
  ranCsv2 : Bool
  deriving DecidableEq, Repr

/-- `processDataDump` (src/challenge.ts:141-159) over stage outcomes:
each boolean says whether the corresponding awaited stage succeeds.  The
stages run in sequence; a rejected await propagates out of the `async`
function at once, skipping every later statement — including the final
`db.destroy()`, which is not in a `finally` block. -/
def processDataDump (downloadOk extractOk setupOk csv1Ok csv2Ok : Bool) :
    RunRes :=
  if !downloadOk then
    ⟨false, false, false, false, false, false, false⟩
  else if !extractOk then
    ⟨false, false, false, true, false, false, false⟩
  else if !setupOk then
    ⟨false, true, false, true, true, false, false⟩
  else if !csv1Ok then
    ⟨false, true, false, true, true, true, false⟩
  else if !csv2Ok then
    ⟨false, true, false, true, true, true, true⟩
  else
    ⟨true, true, true, true, true, true, true⟩

/-- An HTTP response delivered to `downloadFile`'s callback: a status
code and the body chunks. -/
structure HttpResponse where
  status : Nat
  body : List String
  deriving DecidableEq, Repr

/-- Terminal outcome of `downloadFile`. -/
inductive DlOutcome where
  /-- the promise resolved after writing the given bytes -/
  | ok (written : List String)
  /-- the promise rejected from the request's error event -/
  | requestFailed
  /-- the promise rejected from the file stream's error event -/
  | writeFailed
  deriving DecidableEq, Repr

/-- `downloadFile` (src/challenge.ts:16-31): `response` is `none` when
the GET request itself errors, otherwise the delivered response;
`writeOk` says whether piping the body into the file stream succeeds.
The callback pipes the body to disk and resolves on the file stream's
`finish` event; nothing inspects `response.statusCode`. -/
def downloadFile (response : Option HttpResponse) (writeOk : Bool) :
    DlOutcome :=
  match response with
  | none => .requestFailed
  | some r => if writeOk then .ok r.body else .writeFailed

/-! ### Helper lemmas about `chunkSucc` -/

@[simp] theorem chunkSucc_nil {α : Type} (n : Nat) :
    chunkSucc n ([] : List α) = [] := by
  rw [chunkSucc]

theorem chunkSucc_cons {α : Type} (n : Nat) (a : α) (l : List α) :
    chunkSucc n (a :: l) =
      (a :: l).take (n + 1) :: chunkSucc n ((a :: l).drop (n + 1)) := by
  rw [chunkSucc, List.drop_succ_cons]

theorem chunkSucc_of_short {α : Type} (n : Nat) (l : List α)
    (h0 : l ≠ []) (h1 : l.length ≤ n + 1) : chunkSucc n l = [l] := by
  cases l with
  | nil => exact absurd rfl h0
  | cons a t =>
    rw [chunkSucc_cons, List.take_of_length_le h1, List.drop_succ_cons,
      List.drop_eq_nil_iff.mpr (by simpa using h1), chunkSucc_nil]

theorem chunkSucc_full_append {α : Type} (n : Nat) (b t : List α)
    (hb : b.length = n + 1) : chunkSucc n (b ++ t) = b :: chunkSucc n t := by
  cases b with
  | nil => simp at hb
  | cons a bt =>
    have hbt : bt.length = n := by simpa using hb
    rw [List.cons_append, chunkSucc_cons, List.drop_succ_cons,
      List.drop_left' hbt]
    congr 1
    rw [← List.cons_append, List.take_left' hb]

theorem chunkSucc_flatten_bounded {α : Type} (n : Nat) :
    ∀ (m : Nat) (l : List α), l.length ≤ m → (chunkSucc n l).flatten = l := by
  intro m
  induction m with
  | zero =>
    intro l hl
    have hnil : l = [] := List.length_eq_zero.mp (Nat.le_zero.mp hl)
    simp [hnil]
  | succ m ih =>
    intro l hl
    cases l with
    | nil => simp
    | cons a t =>
      have hl' : t.length + 1 ≤ m + 1 := by simpa using hl
      rw [chunkSucc_cons, List.flatten_cons,
        ih ((a :: t).drop (n + 1)) (by simp; omega),
        List.take_append_drop]

theorem chunkSucc_flatten {α : Type} (n : Nat) (l : List α) :
    (chunkSucc n l).flatten = l :=
  chunkSucc_flatten_bounded n l.length l (Nat.le_refl _)

theorem chunkSucc_sizes_bounded {α : Type} (n : Nat) :
    ∀ (m : Nat) (l : List α), l.length ≤ m →
      (chunkSucc n l).map List.length =
        List.replicate (l.length / (n + 1)) (n + 1) ++
          (if l.length % (n + 1) = 0 then [] else [l.length % (n + 1)]) := by
  intro m
  induction m with
  | zero =>
    intro l hl
    have hnil : l = [] := List.length_eq_zero.mp (Nat.le_zero.mp hl)
    simp [hnil]
  | succ m ih =>
    intro l hl
    cases l with
    | nil => simp
    | cons a t =>
      by_cases hle : (a :: t).length ≤ n + 1
      · rw [chunkSucc_of_short n (a :: t) (by simp) hle]
        by_cases heq : (a :: t).length = n + 1
        · rw [List.map_cons, List.map_nil, heq,
            Nat.div_self (Nat.succ_pos n), Nat.mod_self]
          simp
        · have hlt : (a :: t).length < n + 1 := Nat.lt_of_le_of_ne hle heq
          rw [Nat.div_eq_of_lt hlt, Nat.mod_eq_of_lt hlt]
          simp
      · have hgt : n + 1 ≤ (a :: t).length := Nat.le_of_not_le hle
        have hgt' : n + 1 ≤ t.length + 1 := by simpa using hgt
        have hl' : t.length + 1 ≤ m + 1 := by simpa using hl
        have htake : ((a :: t).take (n + 1)).length = n + 1 := by
          simp [List.length_take]
          omega
        have hdroplen : ((a :: t).drop (n + 1)).length =
            (a :: t).length - (n + 1) := by simp
        rw [chunkSucc_cons, List.map_cons, htake,
          ih ((a :: t).drop (n + 1)) (by rw [hdroplen]; simp; omega), hdroplen,
          Nat.div_eq_sub_div (Nat.succ_pos n) hgt, Nat.mod_eq_sub_mod hgt,
          List.replicate_succ, List.cons_append]

theorem chunkSucc_sizes {α : Type} (n : Nat) (l : List α) :
    (chunkSucc n l).map List.length =
      List.replicate (l.length / (n + 1)) (n + 1) ++
        (if l.length % (n + 1) = 0 then [] else [l.length % (n + 1)]) :=
  chunkSucc_sizes_bounded n l.length l (Nat.le_refl _)

/-! ### Helper lemmas about `processRows` -/

/-- On a source whose rows all match the header and whose inserts all
succeed, the loader resolves, commits exactly the size-`N` chunks of the
record sequence (last chunk possibly short), and leaves the accumulator
empty. -/
theorem processRows_success (header : List String) (n : Nat) :
    ∀ (rows : List (List String)) (i k : Nat) (batch : List Record),
      batch.length < n + 1 →
      (∀ r ∈ rows, r.length = header.length) →
      (processRows header (n + 1) (fun _ => true) rows i k batch).outcome = .ok ∧
      (processRows header (n + 1) (fun _ => true) rows i k batch).inserted =
        chunkSucc n (batch ++ rows.map (mkRecord header)) ∧
      (processRows header (n + 1) (fun _ => true) rows i k batch).leftover = [] := by
  intro rows
  induction rows with
  | nil =>
    intro i k batch hb _
    by_cases h0 : 0 < batch.length
    · have hne : batch ≠ [] := by
        intro hcon
        rw [hcon] at h0
        simp at h0
      simp [processRows, h0, chunkSucc_of_short n batch hne (Nat.le_of_lt hb)]
    · have hnil : batch = [] := by
        cases batch with
        | nil => rfl
        | cons x xs => simp at h0
      simp [processRows, hnil]
  | cons r rs ih =>
    intro i k batch hb hwf
    have hr : ¬r.length ≠ header.length := by simp [hwf r (by simp)]
    have hwfs : ∀ x ∈ rs, x.length = header.length := fun x hx =>
      hwf x (List.mem_cons_of_mem r hx)
    by_cases hfull : n + 1 ≤ (batch ++ [mkRecord header r]).length
    · have hlen : (batch ++ [mkRecord header r]).length = n + 1 := by
        simp at hfull hb ⊢
        omega
      obtain ⟨ho, hi, hl⟩ := ih (i + 1) (k + 1) [] (by simp) hwfs
      simp only [processRows, if_neg hr, if_pos hfull, if_true]
      refine ⟨ho, ?_, hl⟩
      have hsplit : batch ++ mkRecord header r :: List.map (mkRecord header) rs =
          (batch ++ [mkRecord header r]) ++ List.map (mkRecord header) rs := by
        simp
      rw [hi, List.nil_append, List.map_cons, hsplit,
        chunkSucc_full_append n _ _ hlen]
    · have hb' : (batch ++ [mkRecord header r]).length < n + 1 :=
        Nat.lt_of_not_le hfull
      obtain ⟨ho, hi, hl⟩ := ih (i + 1) k (batch ++ [mkRecord header r]) hb' hwfs
      simp only [processRows, if_neg hr, if_neg hfull]
      refine ⟨ho, ?_, hl⟩
      rw [hi, List.map_cons]
      congr 1
      simp

/-- Whatever the rows and insert outcomes, the accumulator never grows
past the capacity `N`: entering the loop with fewer than `N` buffered
records keeps the running maximum at or below `N`. -/
theorem processRows_maxB (header : List String) (N : Nat) (insOk : Nat → Bool) :
    ∀ (rows : List (List String)) (i k : Nat) (batch : List Record),
      batch.length < N →
      (processRows header N insOk rows i k batch).maxB ≤ N := by
  intro rows
  induction rows with
  | nil =>
    intro i k batch hb
    by_cases h0 : 0 < batch.length <;>
      by_cases hins : insOk k <;>
        simp [processRows, h0, hins, Nat.le_of_lt hb]
  | cons r rs ih =>
    intro i k batch hb
    by_cases hr : r.length ≠ header.length
    · simp [processRows, hr, Nat.le_of_lt hb]
    · have hb' : (batch ++ [mkRecord header r]).length ≤ N := by
        simp
        omega
      by_cases hfull : N ≤ (batch ++ [mkRecord header r]).length
      · by_cases hins : insOk k
        · have hrec := ih (i + 1) (k + 1) [] (by simp; omega)
          simp only [processRows, if_neg hr, if_pos hfull, hins, if_true]
          exact Nat.max_le.mpr ⟨hb', hrec⟩
        · simp only [processRows, if_neg hr, if_pos hfull, hins, if_false]
          exact hb'
      · have hrec := ih (i + 1) k (batch ++ [mkRecord header r])
          (Nat.lt_of_not_le hfull)
        simp only [processRows, if_neg hr, if_neg hfull]
        exact Nat.max_le.mpr ⟨hb', hrec⟩

/-- Whatever the rows and insert outcomes, no read event ever occurs
while an insert is outstanding: each insert's start and completion are
adjacent in the trace, with the resume (and hence the next read)
strictly after the completion. -/
theorem processRows_noReadDuringInsert (header : List String) (N : Nat)
    (insOk : Nat → Bool) :
    ∀ (rows : List (List String)) (i k : Nat) (batch : List Record),
      readDuringInsert (processRows header N insOk rows i k batch).trace false =
        false := by
  intro rows
  induction rows with
  | nil =>
    intro i k batch
    by_cases h0 : 0 < batch.length <;>
      by_cases hins : insOk k <;>
        simp [processRows, h0, hins, readDuringInsert]
  | cons r rs ih =>
    intro i k batch
    by_cases hr : r.length ≠ header.length
    · simp [processRows, hr, readDuringInsert]
    · by_cases hfull : N ≤ (batch ++ [mkRecord header r]).length
      · by_cases hins : insOk k
        · simp only [processRows, if_neg hr, if_pos hfull, hins, if_true]
          simp [readDuringInsert, ih]
        · simp only [processRows, if_neg hr, if_pos hfull, hins, if_false]
          simp [readDuringInsert]
      · simp only [processRows, if_neg hr, if_neg hfull]
        simp [readDuringInsert, ih]

/-- Whatever the rows and insert outcomes, a read of row `i` happens
only once every insert of a batch before row `i`'s batch has completed:
with `k` inserts already done and `i = N * k + batch.length` rows
already buffered or committed, the produced trace passes the
`readsAfterInserts` scan. -/
theorem processRows_readsAfterInserts (header : List String) (N : Nat)
    (insOk : Nat → Bool) :
    ∀ (rows : List (List String)) (i k : Nat) (batch : List Record),
      i = N * k + batch.length →
      batch.length < N →
      readsAfterInserts N (processRows header N insOk rows i k batch).trace k =
        true := by
  intro rows
  induction rows with
  | nil =>
    intro i k batch _ _
    by_cases h0 : 0 < batch.length <;>
      by_cases hins : insOk k <;>
        simp [processRows, h0, hins, readsAfterInserts]
  | cons r rs ih =>
    intro i k batch hi hb
    have hread : i / N ≤ k := by
      rw [hi, Nat.mul_add_div (Nat.lt_of_le_of_lt (Nat.zero_le _) hb),
        Nat.div_eq_of_lt hb]
      omega
    by_cases hr : r.length ≠ header.length
    · simp [processRows, hr, readsAfterInserts]
    · by_cases hfull : N ≤ (batch ++ [mkRecord header r]).length
      · have hlen : (batch ++ [mkRecord header r]).length = N := by
          simp at hfull ⊢
          omega
        by_cases hins : insOk k
        · have hrec := ih (i + 1) (k + 1) []
            (by simp at hlen ⊢; rw [Nat.mul_succ]; omega)
            (by simp; omega)
          simp only [processRows, if_neg hr, if_pos hfull, hins, if_true]
          simp [readsAfterInserts, hread, hrec]
        · simp only [processRows, if_neg hr, if_pos hfull, hins, if_false]
          simp [readsAfterInserts, hread]
      · have hrec := ih (i + 1) k (batch ++ [mkRecord header r])
          (by simp at hi ⊢; omega) (Nat.lt_of_not_le hfull)
        simp only [processRows, if_neg hr, if_neg hfull]
        simp [readsAfterInserts, hread, hrec]

/-- A malformed row (field count differing from the header's) rejects
the load with the parse error; the batches committed before it are
exactly the full batches formed from the preceding well-formed rows,
and the in-progress accumulator is left unflushed. -/
theorem processRows_parseFailure (header : List String) (n : Nat)
    (bad : List String) (hbad : bad.length ≠ header.length)
    (rest : List (List String)) :
    ∀ (pre : List (List String)) (i k : Nat) (batch : List Record),
      batch.length < n + 1 →
      (∀ r ∈ pre, r.length = header.length) →
      (processRows header (n + 1) (fun _ => true) (pre ++ bad :: rest) i k
          batch).outcome = .parseFailure ∧
      (processRows header (n + 1) (fun _ => true) (pre ++ bad :: rest) i k
            batch).inserted.flatten ++
          (processRows header (n + 1) (fun _ => true) (pre ++ bad :: rest) i k
            batch).leftover =
        batch ++ pre.map (mkRecord header) ∧
      (∀ b ∈ (processRows header (n + 1) (fun _ => true) (pre ++ bad :: rest) i k
          batch).inserted, b.length = n + 1) := by
  intro pre
  induction pre with
  | nil =>
    intro i k batch _ _
    simp [processRows, hbad]
  | cons r rs ih =>
    intro i k batch hb hwf
    have hr : ¬r.length ≠ header.length := by simp [hwf r (by simp)]
    have hwfs : ∀ x ∈ rs, x.length = header.length := fun x hx =>
      hwf x (List.mem_cons_of_mem r hx)
    by_cases hfull : n + 1 ≤ (batch ++ [mkRecord header r]).length
    · have hlen : (batch ++ [mkRecord header r]).length = n + 1 := by
        simp at hfull hb ⊢
        omega
      obtain ⟨ho, hjoin, hall⟩ := ih (i + 1) (k + 1) [] (by simp) hwfs
      rw [List.cons_append]
      simp only [processRows, if_neg hr, if_pos hfull, if_true]
      refine ⟨ho, ?_, ?_⟩
      · rw [List.flatten_cons, List.append_assoc, hjoin, List.nil_append,
          List.map_cons]
        simp
      · intro b hbmem
        rcases List.mem_cons.mp hbmem with hcase | hcase
        · rw [hcase]
          exact hlen
        · exact hall b hcase
    · have hb' : (batch ++ [mkRecord header r]).length < n + 1 :=
        Nat.lt_of_not_le hfull
      obtain ⟨ho, hjoin, hall⟩ := ih (i + 1) k (batch ++ [mkRecord header r]) hb' hwfs
      rw [List.cons_append]
      simp only [processRows, if_neg hr, if_neg hfull]
      refine ⟨ho, ?_, hall⟩
      rw [hjoin, List.map_cons]
      simp

/-- Ceiling division written as `(R + N - 1) / N` for `N = n + 1` agrees
with `R / N` plus one extra for a nonzero remainder. -/
theorem succ_ceil_div (n R : Nat) :
    (R + (n + 1) - 1) / (n + 1) =
      R / (n + 1) + (if R % (n + 1) = 0 then 0 else 1) := by
  have hre : R + (n + 1) - 1 = R + n := by omega
  rw [hre]
  have h := Nat.div_add_mod R (n + 1)
  by_cases hs : R % (n + 1) = 0
  · have hr2 : R + n = (n + 1) * (R / (n + 1)) + n := by omega
    rw [hr2, Nat.mul_add_div (Nat.succ_pos n),
      @Nat.div_eq_of_lt n (n + 1) (by omega), hs]
    simp
  · have hlt : R % (n + 1) < n + 1 := Nat.mod_lt _ (Nat.succ_pos n)
    have hr2 : R + n =
        (n + 1) * (R / (n + 1)) + (R % (n + 1) - 1) + (n + 1) := by omega
    rw [hr2, Nat.add_div_right _ (Nat.succ_pos n),
      Nat.mul_add_div (Nat.succ_pos n),
      @Nat.div_eq_of_lt (R % (n + 1) - 1) (n + 1) (by omega), if_neg hs]

/-- A list whose members all have length `N` maps under `List.length` to
the constant list. -/
theorem map_length_eq_replicate {α : Type} {l : List (List α)} {N : Nat}
    (h : ∀ b ∈ l, b.length = N) :
    l.map List.length = List.replicate l.length N := by
  induction l with
  | nil => simp
  | cons x xs ih =>
    simp only [List.map_cons, List.length_cons, List.replicate_succ]
    rw [h x (by simp), ih (fun b hb => h b (by simp [hb]))]

/-! ### The claims -/

/-- C1: during the load of one data source, no record is ever read from
the source while a bulk-insert is outstanding, and batch `b`'s insert
completes strictly before any read contributing to batch `b + 1`: the
load's trace has no read between an insert's start and completion, and
every read of row `i` finds all inserts of the batches before row `i`'s
batch (numbered `i / N`) already completed. -/
theorem insert_completes_before_next_read (header : List String)
    (rows : List (List String)) (N : Nat) (insOk : Nat → Bool)
    (hN : 0 < N) :
    readDuringInsert (processCSV header rows N insOk).trace false = false ∧
    readsAfterInserts N (processCSV header rows N insOk).trace 0 = true := by
  constructor
  · exact processRows_noReadDuringInsert header N insOk rows 0 0 []
  · exact processRows_readsAfterInserts header N insOk rows 0 0 [] (by simp)
      (by simpa using hN)

theorem insert_completes_before_next_read_witness :
    0 < 2 ∧
    (readDuringInsert
        (processCSV ["id"] [["1"], ["2"], ["3"]] 2 (fun _ => true)).trace
        false = false ∧
      readsAfterInserts 2
        (processCSV ["id"] [["1"], ["2"], ["3"]] 2 (fun _ => true)).trace 0 =
        true) :=
  ⟨by decide, insert_completes_before_next_read ["id"] [["1"], ["2"], ["3"]] 2
    (fun _ => true) (by decide)⟩

/-- C2: a source with `R` well-formed data rows and batch capacity `N`
performs exactly `⌈R / N⌉` inserts; the insert sizes are `R / N` full
batches of `N` followed by one batch of `R mod N` when the remainder is
nonzero, so the last insert has `R mod N` records (or `N` when `R` is an
exact multiple, the default `N` of `getD` covering the empty source). -/
theorem insert_count_and_last_batch_size (header : List String)
    (rows : List (List String)) (N : Nat) (hN : 0 < N)
    (hwf : ∀ r ∈ rows, r.length = header.length) :
    (processCSV header rows N (fun _ => true)).inserted.length =
      (rows.length + N - 1) / N ∧
    (processCSV header rows N (fun _ => true)).inserted.map List.length =
      List.replicate (rows.length / N) N ++
        (if rows.length % N = 0 then [] else [rows.length % N]) ∧
    ((processCSV header rows N (fun _ => true)).inserted.map
          List.length).getLast?.getD N =
      (if rows.length % N = 0 then N else rows.length % N) := by
  obtain ⟨n, rfl⟩ : ∃ n, N = n + 1 := ⟨N - 1, by omega⟩
  obtain ⟨-, hins, -⟩ := processRows_success header n rows 0 0 [] (by simp) hwf
  have hsizes : (processCSV header rows (n + 1) (fun _ => true)).inserted.map
      List.length =
      List.replicate (rows.length / (n + 1)) (n + 1) ++
        (if rows.length % (n + 1) = 0 then [] else [rows.length % (n + 1)]) := by
    unfold processCSV
    rw [hins, List.nil_append, chunkSucc_sizes, List.length_map]
  refine ⟨?_, hsizes, ?_⟩
  · have hlen : (processCSV header rows (n + 1) (fun _ => true)).inserted.length =
        ((processCSV header rows (n + 1) (fun _ => true)).inserted.map
          List.length).length := (List.length_map _ _).symm
    rw [hlen, hsizes, List.length_append, List.length_replicate, succ_ceil_div]
    by_cases hs : rows.length % (n + 1) = 0 <;> simp [hs]
  · rw [hsizes]
    by_cases hs : rows.length % (n + 1) = 0
    · rw [if_pos hs, if_pos hs, List.append_nil, List.getLast?_replicate]
      by_cases hq : rows.length / (n + 1) = 0 <;> simp [hq]
    · rw [if_neg hs, if_neg hs, List.getLast?_concat]
      rfl

theorem insert_count_and_last_batch_size_witness :
    0 < 2 ∧
    (∀ r ∈ [["1", "Alice"], ["2", "Bob"], ["3", "Carol"]],
      r.length = ["id", "name"].length) ∧
    ((processCSV ["id", "name"] [["1", "Alice"], ["2", "Bob"], ["3", "Carol"]]
          2 (fun _ => true)).inserted.length = (3 + 2 - 1) / 2 ∧
      (processCSV ["id", "name"] [["1", "Alice"], ["2", "Bob"], ["3", "Carol"]]
          2 (fun _ => true)).inserted.map List.length =
        List.replicate (3 / 2) 2 ++ (if 3 % 2 = 0 then [] else [3 % 2]) ∧
      ((processCSV ["id", "name"] [["1", "Alice"], ["2", "Bob"], ["3", "Carol"]]
            2 (fun _ => true)).inserted.map List.length).getLast?.getD 2 =
        (if 3 % 2 = 0 then 2 else 3 % 2)) :=
  ⟨by decide, by decide,
    insert_count_and_last_batch_size ["id", "name"]
      [["1", "Alice"], ["2", "Bob"], ["3", "Carol"]] 2 (by decide) (by decide)⟩

/-- C3: throughout the load of any source — whatever its rows and
whatever each insert does — the in-memory accumulator never holds more
than `N` records: the maximum accumulator size reached is at most `N`. -/
theorem accumulator_never_exceeds_capacity (header : List String)
    (rows : List (List String)) (N : Nat) (insOk : Nat → Bool)
    (hN : 0 < N) :
    (processCSV header rows N insOk).maxB ≤ N :=
  processRows_maxB header N insOk rows 0 0 [] (by simpa using hN)

theorem accumulator_never_exceeds_capacity_witness :
    0 < 2 ∧
    (processCSV ["id"] [["1"], ["2"], ["3"], ["4"], ["5"]] 2
        (fun k => k == 0)).maxB ≤ 2 :=
  ⟨by decide, accumulator_never_exceeds_capacity ["id"]
    [["1"], ["2"], ["3"], ["4"], ["5"]] 2 (fun k => k == 0) (by decide)⟩

/-- C4: on a successful load every inserted record corresponds 1:1 to
one source row — concatenating the committed batches in insertion order
yields exactly the records of the source rows, in order, none lost and
none duplicated — and the accumulator is left empty: each batch was
inserted as one unit and then cleared. -/
theorem inserted_records_match_source_rows (header : List String)
    (rows : List (List String)) (N : Nat) (hN : 0 < N)
    (hwf : ∀ r ∈ rows, r.length = header.length) :
    (processCSV header rows N (fun _ => true)).outcome = .ok ∧
    (processCSV header rows N (fun _ => true)).inserted.flatten =
      rows.map (mkRecord header) ∧
    (processCSV header rows N (fun _ => true)).leftover = [] := by
  obtain ⟨n, rfl⟩ : ∃ n, N = n + 1 := ⟨N - 1, by omega⟩
  unfold processCSV
  obtain ⟨ho, hins, hl⟩ := processRows_success header n rows 0 0 [] (by simp) hwf
  exact ⟨ho, by rw [hins, List.nil_append, chunkSucc_flatten], hl⟩

theorem inserted_records_match_source_rows_witness :
    0 < 2 ∧
    (∀ r ∈ [["1", "x"], ["2", "y"], ["3", "z"]], r.length = ["a", "b"].length) ∧
    ((processCSV ["a", "b"] [["1", "x"], ["2", "y"], ["3", "z"]] 2
          (fun _ => true)).outcome = .ok ∧
      (processCSV ["a", "b"] [["1", "x"], ["2", "y"], ["3", "z"]] 2
          (fun _ => true)).inserted.flatten =
        [["1", "x"], ["2", "y"], ["3", "z"]].map (mkRecord ["a", "b"]) ∧
      (processCSV ["a", "b"] [["1", "x"], ["2", "y"], ["3", "z"]] 2
          (fun _ => true)).leftover = []) :=
  ⟨by decide, by decide,
    inserted_records_match_source_rows ["a", "b"]
      [["1", "x"], ["2", "y"], ["3", "z"]] 2 (by decide) (by decide)⟩

/-- C5: a bulk-insert failure on batch 2 of 3 (six rows, capacity 2,
second insert rejects).  Batch 1 stays persisted and rows 5 and 6 —
batch 3 — are never read, as the spec says; but the load does not fail
with a storage error: the rejection inside the `async` data handler is
unhandled, `reject` is never invoked, the stream stays paused and the
promise never settles (`Outcome.hang`). -/
theorem insert_failure_hangs_load :
    (processCSV ["id"] [["1"], ["2"], ["3"], ["4"], ["5"], ["6"]] 2
        (fun k => k == 0)).outcome = .hang ∧
    (processCSV ["id"] [["1"], ["2"], ["3"], ["4"], ["5"], ["6"]] 2
        (fun k => k == 0)).inserted = [[[("id", "1")], [("id", "2")]]] ∧
    (processCSV ["id"] [["1"], ["2"], ["3"], ["4"], ["5"], ["6"]] 2
        (fun k => k == 0)).trace =
      [.read 0, .read 1, .insertStart 0, .insertEnd 0, .read 2, .read 3,
        .insertStart 1] :=
  ⟨rfl, rfl, rfl⟩

/-- C6: a malformed row (field count differing from the header's)
anywhere in the source rejects that source's load with the parse error;
the records persisted are exactly those of the already-completed full
batches of the preceding rows (every committed batch has size `N`), and
the in-progress unflushed accumulator holds the rest, never inserted. -/
theorem malformed_row_aborts_with_parse_error (header : List String)
    (pre rest : List (List String)) (bad : List String) (N : Nat)
    (hN : 0 < N) (hbad : bad.length ≠ header.length)
    (hwf : ∀ r ∈ pre, r.length = header.length) :
    (processCSV header (pre ++ bad :: rest) N (fun _ => true)).outcome =
      .parseFailure ∧
    (processCSV header (pre ++ bad :: rest) N
          (fun _ => true)).inserted.flatten ++
        (processCSV header (pre ++ bad :: rest) N (fun _ => true)).leftover =
      pre.map (mkRecord header) ∧
    (processCSV header (pre ++ bad :: rest) N
          (fun _ => true)).inserted.map List.length =
      List.replicate
        (processCSV header (pre ++ bad :: rest) N
          (fun _ => true)).inserted.length N := by
  obtain ⟨n, rfl⟩ : ∃ n, N = n + 1 := ⟨N - 1, by omega⟩
  unfold processCSV
  obtain ⟨ho, hjoin, hall⟩ :=
    processRows_parseFailure header n bad hbad rest pre 0 0 [] (by simp) hwf
  refine ⟨ho, ?_, map_length_eq_replicate hall⟩
  simpa using hjoin

theorem malformed_row_aborts_with_parse_error_witness :
    0 < 2 ∧
    (["4"] : List String).length ≠ (["id", "name"] : List String).length ∧
    (∀ r ∈ [["1", "a"], ["2", "b"], ["3", "c"]],
      r.length = ["id", "name"].length) ∧
    ((processCSV ["id", "name"]
          ([["1", "a"], ["2", "b"], ["3", "c"]] ++ ["4"] :: []) 2
          (fun _ => true)).outcome = .parseFailure ∧
      (processCSV ["id", "name"]
            ([["1", "a"], ["2", "b"], ["3", "c"]] ++ ["4"] :: []) 2
            (fun _ => true)).inserted.flatten ++
          (processCSV ["id", "name"]
            ([["1", "a"], ["2", "b"], ["3", "c"]] ++ ["4"] :: []) 2
            (fun _ => true)).leftover =
        [["1", "a"], ["2", "b"], ["3", "c"]].map (mkRecord ["id", "name"]) ∧
      (processCSV ["id", "name"]
            ([["1", "a"], ["2", "b"], ["3", "c"]] ++ ["4"] :: []) 2
            (fun _ => true)).inserted.map List.length =
        List.replicate
          (processCSV ["id", "name"]
            ([["1", "a"], ["2", "b"], ["3", "c"]] ++ ["4"] :: []) 2
            (fun _ => true)).inserted.length 2) :=
  ⟨by decide, by decide, by decide,
    malformed_row_aborts_with_parse_error ["id", "name"]
      [["1", "a"], ["2", "b"], ["3", "c"]] [] ["4"] 2 (by decide) (by decide)
      (by decide)⟩

/-- C7, counterexample: when the first CSV load fails after the storage
connection was opened, the orchestrator never reaches `db.destroy()` —
the claim that the connection is closed on every exit path is false. -/
theorem connection_not_closed_on_load_failure :
    (processDataDump true true true false true).dbOpened = true ∧
    (processDataDump true true true false true).dbClosed = false :=
  ⟨rfl, rfl⟩

/-- C7, amended: a failure at any stage aborts all remaining stages, but
the storage connection is closed only on the all-success path: there is
no `finally`, so a failure after the connection is opened leaves it
unclosed. -/
theorem connection_closed_only_on_full_success :
    ∀ d e s c1 c2 : Bool,
      (processDataDump d e s c1 c2).ok = (d && e && s && c1 && c2) ∧
      (processDataDump d e s c1 c2).dbOpened = (d && e) ∧
      (processDataDump d e s c1 c2).dbClosed = (d && e && s && c1 && c2) ∧
      (processDataDump d e s c1 c2).ranExtract = d ∧
      (processDataDump d e s c1 c2).ranSetup = (d && e) ∧
      (processDataDump d e s c1 c2).ranCsv1 = (d && e && s) ∧
      (processDataDump d e s c1 c2).ranCsv2 = (d && e && s && c1) := by
  decide

/-- C8: `setupTables` never fails and is idempotent: on any storage
state it succeeds, keeps every existing table's columns untouched, and
fills in only the missing tables with the fixed layouts; in particular
a second run on the result of a run against an empty target returns the
same two tables, with no duplicate-column error and no data loss. -/
theorem setupTables_idempotent :
    (∀ s : Schema,
      setupTables s =
        .ok ⟨some (s.organizations.getD orgColumns),
          some (s.customers.getD customerColumns)⟩) ∧
    setupTables emptySchema = .ok ⟨some orgColumns, some customerColumns⟩ ∧
    (setupTables emptySchema).bind setupTables = setupTables emptySchema := by
  refine ⟨?_, rfl, rfl⟩
  intro s
  rcases s with ⟨org, cust⟩
  cases org <;> cases cust <;> rfl

/-- C9: a source with a header row and zero data rows performs zero
insert operations and completes successfully: the promise resolves, no
batch is committed, and the trace holds no event at all. -/
theorem empty_source_zero_inserts (header : List String) (N : Nat)
    (insOk : Nat → Bool) :
    processCSV header [] N insOk = ⟨.ok, [], [], [], 0⟩ :=
  rfl

/-- C10: `downloadFile` resolves for any response whose body is fully
written to the destination, whatever the status code: nothing inspects
`response.statusCode`, so a 404 or 500 body is written to the file and
the promise resolves rather than rejecting. -/
theorem download_ignores_status_code (status : Nat) (body : List String) :
    downloadFile (some ⟨status, body⟩) true = .ok body :=
  rfl

end Challenge
